import Mathlib

/-!
A shallow embedding of the `rn` time-formatting engine
(`src/formatter/mod.rs`, `src/formatter/segment.rs`, `src/formatter/unit.rs`,
`src/main.rs`).

Modelling conventions:
* Rust machine integers (`u8`, `u32`, `u64`, `usize`) are modelled as `ℕ`;
  none of the verified claims concern integer overflow, and all concrete
  inputs fit comfortably in the original widths.
* `num::rational::Ratio<u64>` is modelled as a numerator/denominator pair of
  naturals (`Ratio` below).  num-rational reduces every result to lowest
  terms; reduction never changes the rational value a pair denotes, and every
  observable of this program (the truncated digit handed to the digit
  renderer) depends only on that value, so the embedding keeps pairs
  unreduced.  The denoted exact rational is given by `Ratio.val`, used on the
  specification side of the theorems.
* Rust panics (division of a rational by zero, remainder by zero, and the
  radix assertion of the `radix_fmt` crate) are modelled as `Option.none`.
-/

namespace Rn

/-- Model of `num::rational::Ratio<u64>`: an exact nonnegative fraction.
`num` keeps pairs reduced; this embedding does not (see module comment). -/
structure Ratio where
  numer : ℕ
  denom : ℕ
deriving DecidableEq, Repr

/-- The exact rational value a `Ratio` pair denotes (specification side). -/
def Ratio.val (r : Ratio) : ℚ := (r.numer : ℚ) / (r.denom : ℚ)

/-- `Ratio<u64> * u64` (num-rational `Mul<T> for Ratio<T>`):
`(a/b) * c = (a*c)/b`. -/
def Ratio.mulNat (r : Ratio) (c : ℕ) : Ratio :=
  ⟨r.numer * c, r.denom⟩

/-- `Ratio<u64> / u64` (num-rational `Div<T> for Ratio<T>`):
`(a/b) / c = a/(b*c)`; division by zero panics in the rendering pipeline
(modelled as `none`). -/
def Ratio.divNat (r : Ratio) (c : ℕ) : Option Ratio :=
  if c = 0 then none else some ⟨r.numer, r.denom * c⟩

/-- `Ratio<u64> % u64` (num-rational `Rem<T> for Ratio<T>`):
`(a/b) % c = (a % (b*c)) / b`; remainder by zero panics (modelled as
`none`). -/
def Ratio.remNat (r : Ratio) (c : ℕ) : Option Ratio :=
  if c = 0 then none else some ⟨r.numer % (r.denom * c), r.denom⟩

/-- The truncation `(*self.1.numer()).saturating_div(*self.1.denom())` of
`ValueDisplay::fmt` (`src/formatter/unit.rs` line 72): `u64` division of the
numerator by the denominator, i.e. `⌊r.val⌋₊` whenever `r.denom ≠ 0`. -/
def Ratio.trunc (r : Ratio) : ℕ := r.numer / r.denom

/-- `src/formatter/unit.rs` line 6: `const DEFAULT_WIDTH: usize = 2;`. -/
def DEFAULT_WIDTH : ℕ := 2

/-- `src/formatter/unit.rs` lines 11–22: the `TimeUnit` struct.  Field names
follow the source (`_name` is called `name` here). -/
structure TimeUnit where
  radix : ℕ
  name : String
  value : ℕ
  limit : ℕ
  width : ℕ
deriving DecidableEq, Repr

/-- `src/formatter/unit.rs` lines 29–37: `TimeUnit::with_radix` stores its
arguments unmodified; no validation is performed. -/
def TimeUnit.with_radix (radix : ℕ) (name : String) (value limit width : ℕ) :
    TimeUnit :=
  { radix := radix, name := name, value := value, limit := limit, width := width }

/-- `src/formatter/unit.rs` lines 25–27: `TimeUnit::new` delegates to
`with_radix` with radix 10. -/
def TimeUnit.new (name : String) (value limit width : ℕ) : TimeUnit :=
  TimeUnit.with_radix 10 name value limit width

/-- Modelled from the spec (§4.1 DigitRenderer) and the external `radix_fmt`
crate used by `ValueDisplay` (`src/formatter/unit.rs` lines 71–75): the digit
character for a digit value `d < 36`, `'0'`–`'9'` then `'a'`–`'z'`. -/
def digitChar (d : ℕ) : Char :=
  if d < 10 then Char.ofNat (48 + d) else Char.ofNat (87 + d)

/-- Modelled from the spec (§4.1): repeated div/mod digit extraction in the
given radix, most significant digit first, as performed by
`radix_fmt::radix(value, base).to_string()`.  The first argument is fuel;
`fuel ≥ n` suffices for any radix ≥ 2. -/
def toRadixAux (radix : ℕ) : ℕ → ℕ → List Char
  | 0, _ => []
  | _ + 1, 0 => []
  | fuel + 1, n + 1 =>
    toRadixAux radix fuel ((n + 1) / radix) ++ [digitChar ((n + 1) % radix)]

/-- Modelled from the spec (§4.1): the natural (unpadded) representation of
`n` in base `radix`; `0` renders as `"0"`. -/
def natRepr (radix n : ℕ) : String :=
  if n = 0 then "0" else ⟨toRadixAux radix n n⟩

/-- Modelled from the spec (§4.1) and `std::fmt`: `Formatter::pad_integral`
with fill `'0'`, sign-aware zero padding, empty prefix, and a nonnegative
value left-pads the digit string with `'0'` up to `width`, never truncating
(`src/formatter/unit.rs` line 76). -/
def pad_integral (width : ℕ) (s : String) : String :=
  ⟨List.replicate (width - s.length) '0' ++ s.data⟩

/-- `src/formatter/unit.rs` lines 67–78: formatting `ValueDisplay(radix,
value)` under a `{:0width$}` format spec.  The value is truncated to an
integer, converted to the radix, and zero-padded.  `radix_fmt::radix` panics
unless `2 ≤ radix ≤ 36` (modelled as `none`). -/
def ValueDisplay.fmtStr (radix : ℕ) (value : Ratio) (width : ℕ) :
    Option String :=
  if 2 ≤ radix ∧ radix ≤ 36 then
    some (pad_integral width (natRepr radix value.trunc))
  else none

/-- `src/formatter/unit.rs` lines 40–47: `TimeUnit::render` formats
`ValueDisplay(self.radix, value)` with width `self.width`. -/
def TimeUnit.render (u : TimeUnit) (value : Ratio) : Option String :=
  ValueDisplay.fmtStr u.radix value u.width

/-- `src/formatter/unit.rs` lines 50–58: `TimeUnit::render_fmt` writes the
same `ValueDisplay(self.radix, value)` with width `self.width` to a
formatter, modelled as appending to the accumulated output `acc`. -/
def TimeUnit.render_fmt (u : TimeUnit) (acc : String) (value : Ratio) :
    Option String :=
  (ValueDisplay.fmtStr u.radix value u.width).map (fun s => acc ++ s)

/-- `src/formatter/segment.rs` lines 9–14: the `Segment` enum. -/
inductive Segment where
  | Literal (s : String)
  | Value (u : TimeUnit)
deriving DecidableEq, Repr

/-- `src/formatter/segment.rs` lines 19–24: `Segment::render`.  A literal
renders as its own text; a value segment renders
`u.render(total / u.value % u.limit)` (Rust precedence:
`(total / u.value) % u.limit`). -/
def Segment.render (seg : Segment) (total : Ratio) : Option String :=
  match seg with
  | .Literal s => some s
  | .Value u =>
    (total.divNat u.value).bind fun q =>
      (q.remNat u.limit).bind fun q2 => u.render q2

/-- `src/formatter/segment.rs` lines 28–33: `Segment::render_fmt`, writing to
a formatter (modelled as appending to `acc`); it recomputes
`total / u.value % u.limit` exactly as `Segment::render` does. -/
def Segment.render_fmt (seg : Segment) (acc : String) (total : Ratio) :
    Option String :=
  match seg with
  | .Literal s => some (acc ++ s)
  | .Value u =>
    (total.divNat u.value).bind fun q =>
      (q.remNat u.limit).bind fun q2 => u.render_fmt acc q2

/-- The digit value a `Segment::Value` extracts and (after the final
truncation inside `ValueDisplay`) hands to the digit renderer:
`trunc((total / value) % limit)` with the rational operations of
`src/formatter/segment.rs` line 22. -/
def extractDigit (u : TimeUnit) (total : Ratio) : Option ℕ :=
  (total.divNat u.value).bind fun q =>
    (q.remNat u.limit).map fun q2 => q2.trunc

/-- `src/formatter/mod.rs` lines 12–21: the `TimeFormatter` struct. -/
structure TimeFormatter where
  base : Ratio
  segments : List Segment
deriving DecidableEq, Repr

/-- `src/formatter/mod.rs` lines 25–34: `TimeFormatter::new` stores the base
ratio and collects the segments, performing no validation. -/
def TimeFormatter.new (base : Ratio) (spec : List Segment) : TimeFormatter :=
  { base := base, segments := spec }

/-- The `for segment in &self.segments { out += &segment.render(total) }`
loop of `TimeFormatter::render` (`src/formatter/mod.rs` lines 43–45), with
the accumulated output `out` made explicit. -/
def renderLoop (segments : List Segment) (total : Ratio) (out : String) :
    Option String :=
  match segments with
  | [] => some out
  | seg :: rest =>
    (seg.render total).bind fun s => renderLoop rest total (out ++ s)

/-- `src/formatter/mod.rs` lines 36–47: `TimeFormatter::render` converts the
millisecond count to base units once (`total = self.base * ms`) and renders
every segment against that same total. -/
def TimeFormatter.render (f : TimeFormatter) (ms : ℕ) : Option String :=
  renderLoop f.segments (f.base.mulNat ms) ""

/-- `src/main.rs` lines 14–27: the Misalian–Kunimunean seximal formatter
(4-tuple `From` impls use `DEFAULT_WIDTH`, the 5-tuple one the given
width). -/
def misalian_kunimunean_time_formatter : TimeFormatter :=
  TimeFormatter.new ⟨36 * 36 * 36 * 6, 86400000⟩
    [ .Value (TimeUnit.with_radix 6 "lapse" 7776 36 DEFAULT_WIDTH),
      .Literal ":",
      .Value (TimeUnit.with_radix 6 "lull" 216 36 DEFAULT_WIDTH),
      .Literal ":",
      .Value (TimeUnit.with_radix 6 "moment" 6 36 DEFAULT_WIDTH),
      .Literal ".",
      .Value (TimeUnit.with_radix 6 "snap" 1 6 0) ]

/-- `src/main.rs` lines 30–35: the Misalian–Kunimunean span formatter. -/
def mk_span_time_formatter : TimeFormatter :=
  TimeFormatter.new ⟨36 * 36 * 36 * 6, 86400000⟩
    [ .Value (TimeUnit.with_radix 6 "span" 1296 1296 3) ]

/-- `src/main.rs` lines 38–43: the Misalian–Kunimunean snap formatter. -/
def mk_snap_time_formatter : TimeFormatter :=
  TimeFormatter.new ⟨36 * 36 * 36 * 6, 86400000⟩
    [ .Value (TimeUnit.with_radix 6 "snap" 1 (36 * 36 * 36 * 6) 7) ]

/-- `src/formatter/mod.rs` lines 59–70 (test `construct_hms_ms`): the decimal
h:m:s.ms formatter `si_time_units`. -/
def si_time_units : TimeFormatter :=
  TimeFormatter.new ⟨1, 1⟩
    [ .Value (TimeUnit.with_radix 10 "hour" 3600000 24 DEFAULT_WIDTH),
      .Literal ":",
      .Value (TimeUnit.with_radix 10 "minute" 60000 60 DEFAULT_WIDTH),
      .Literal ":",
      .Value (TimeUnit.with_radix 10 "second" 1000 60 DEFAULT_WIDTH),
      .Literal ".",
      .Value (TimeUnit.with_radix 10 "millisecond" 1 1000 0) ]

/-- `src/main.rs` lines 159–176 (test module): the repository's own
reference implementation `senary_time_a`, which pre-truncates the snap total
with one integer division and then extracts places by successive integer
div/mod, formatting each place in radix 6 with no padding
(`format!` with plain `{}` on `radix_fmt::radix(_, 6)`). -/
def senary_time_a (millis : ℕ) : String :=
  let remaining0 := millis * 36 * 36 * 36 * 6 / 86400000
  let snaps := remaining0 % 6
  let remaining1 := remaining0 / 6
  let moments := remaining1 % 36
  let remaining2 := remaining1 / 36
  let lulls := remaining2 % 36
  let lapses := remaining2 / 36
  natRepr 6 lapses ++ ":" ++ natRepr 6 lulls ++ ":" ++ natRepr 6 moments ++
    "." ++ natRepr 6 snaps

/-- Spec-side inverse of `digitChar`: the value of a lowercase digit
character. -/
def digitVal (c : Char) : ℕ :=
  if c.toNat ≤ 57 then c.toNat - 48 else c.toNat - 87

/-- Spec-side: interpret a digit string as an integer in the given radix
(most significant digit first); used to state the round-trip property of
§4.1. -/
def fromRadix (radix : ℕ) (s : String) : ℕ :=
  s.data.foldl (fun acc c => acc * radix + digitVal c) 0

/-- The 36-character digit alphabet of §4.1: `'0'`–`'9'` then `'a'`–`'z'`. -/
def digitAlphabet : String := "0123456789abcdefghijklmnopqrstuvwxyz"

/-- Spec-side (§4.4): the list of per-segment fragments, every one rendered
against the same immutable total. -/
def segmentStrings (total : Ratio) : List Segment → Option (List String)
  | [] => some []
  | seg :: rest =>
    (seg.render total).bind fun s =>
      (segmentStrings total rest).map fun ss => s :: ss

/-- Spec-side (§8): the predicted output length of one segment — a literal
contributes its own length, a value segment `max(width, natural digit
count)` of its extracted digit value. -/
def segSpecLen (total : Ratio) : Segment → Option ℕ
  | .Literal s => some s.length
  | .Value u =>
    (extractDigit u total).map fun d => max u.width (natRepr u.radix d).length

/-- Spec-side (§8): the predicted per-segment lengths over a segment list. -/
def specLens (total : Ratio) : List Segment → Option (List ℕ)
  | [] => some []
  | seg :: rest =>
    (segSpecLen total seg).bind fun n =>
      (specLens total rest).map fun ns => n :: ns

/-! ## Helper lemmas -/

/-- `Ratio.trunc` is the natural floor of the denoted rational. -/
theorem Ratio.trunc_eq_floor_val (r : Ratio) : r.trunc = ⌊r.val⌋₊ := by
  rw [Ratio.val, Ratio.trunc, Nat.floor_div_eq_div]

/-- Dividing the denoted value by a natural is floored by nested natural
division of the numerator. -/
theorem Ratio.floor_val_div (r : Ratio) (v : ℕ) :
    ⌊r.val / (v : ℚ)⌋₊ = r.numer / (r.denom * v) := by
  rw [Ratio.val, div_div, ← Nat.cast_mul, Nat.floor_div_eq_div]

/-- The digit extracted by a value segment, in terms of pure natural
arithmetic on the total's numerator and denominator. -/
theorem extractDigit_eq_nat (u : TimeUnit) (total : Ratio)
    (hv : u.value ≠ 0) (hl : u.limit ≠ 0) :
    extractDigit u total =
      some (total.numer / (total.denom * u.value) % u.limit) := by
  rw [extractDigit, Ratio.divNat, if_neg hv, Option.some_bind, Ratio.remNat,
    if_neg hl, Option.map_some', Ratio.trunc, Nat.mod_mul_right_div_self]

/-- The digit extracted by a value segment equals
`⌊total / place_value⌋ mod modulus` computed on the exact rational total. -/
theorem extractDigit_eq_floor (u : TimeUnit) (total : Ratio)
    (hv : u.value ≠ 0) (hl : u.limit ≠ 0) :
    extractDigit u total = some (⌊total.val / (u.value : ℚ)⌋₊ % u.limit) := by
  rw [extractDigit_eq_nat u total hv hl, Ratio.floor_val_div]

/-- `TimeUnit.render` only looks at the truncation of its argument. -/
theorem TimeUnit.render_congr (u : TimeUnit) (q q' : Ratio)
    (h : q.trunc = q'.trunc) : u.render q = u.render q' := by
  rw [TimeUnit.render, TimeUnit.render, ValueDisplay.fmtStr,
    ValueDisplay.fmtStr, h]

/-- A natural lower bound on a `Ratio`'s value, in terms of the pair. -/
theorem Ratio.natCast_le_val (r : Ratio) (c : ℕ) (hd : 1 ≤ r.denom) :
    (c : ℚ) ≤ r.val ↔ r.denom * c ≤ r.numer := by
  have hdq : (0 : ℚ) < (r.denom : ℚ) := by exact_mod_cast (by omega : 0 < r.denom)
  rw [Ratio.val, le_div_iff₀ hdq, mul_comm]
  constructor <;> intro h <;> exact_mod_cast h

/-- A natural strict upper bound on a `Ratio`'s value, in terms of the
pair. -/
theorem Ratio.val_lt_natCast (r : Ratio) (c : ℕ) (hd : 1 ≤ r.denom) :
    r.val < (c : ℚ) ↔ r.numer < r.denom * c := by
  have hdq : (0 : ℚ) < (r.denom : ℚ) := by exact_mod_cast (by omega : 0 < r.denom)
  rw [Ratio.val, div_lt_iff₀ hdq, mul_comm]
  constructor <;> intro h <;> exact_mod_cast h

theorem string_join_cons (s : String) (ss : List String) :
    String.join (s :: ss) = s ++ String.join ss := by
  apply String.ext
  simp [String.data_join, String.data_append]

theorem pad_integral_length (w : ℕ) (s : String) :
    (pad_integral w s).length = max w s.length := by
  show (List.replicate (w - s.length) '0' ++ s.data).length = _
  rw [List.length_append, List.length_replicate]
  have hs : s.length = s.data.length := rfl
  omega

/-- The accumulator form of the render loop, against the per-segment
fragment list. -/
theorem renderLoop_eq_segmentStrings (total : Ratio) :
    ∀ (segs : List Segment) (out : String),
      renderLoop segs total out =
        (segmentStrings total segs).map fun ss => out ++ String.join ss := by
  intro segs
  induction segs with
  | nil =>
    intro out
    show some out = some (out ++ String.join [])
    rw [show String.join [] = "" from rfl, String.append_empty]
  | cons seg rest ih =>
    intro out
    show ((seg.render total).bind fun s => renderLoop rest total (out ++ s)) =
      ((seg.render total).bind fun s =>
        (segmentStrings total rest).map fun ss => s :: ss).map
          fun ss => out ++ String.join ss
    cases seg.render total with
    | none => rfl
    | some s =>
      rw [Option.some_bind, Option.some_bind, ih]
      cases segmentStrings total rest with
      | none => rfl
      | some ss =>
        show some (out ++ s ++ String.join ss) =
          some (out ++ String.join (s :: ss))
        rw [string_join_cons, String.append_assoc]

/-- A successfully rendered segment has exactly the §8-predicted length. -/
theorem segment_render_length (seg : Segment) (total : Ratio) (s : String)
    (h : seg.render total = some s) :
    segSpecLen total seg = some s.length := by
  cases seg with
  | Literal t =>
    simp only [Segment.render] at h
    injection h with h
    subst h
    rfl
  | Value u =>
    simp only [Segment.render] at h
    cases hdiv : total.divNat u.value with
    | none => rw [hdiv, Option.none_bind] at h; cases h
    | some q =>
      rw [hdiv, Option.some_bind] at h
      cases hrem : q.remNat u.limit with
      | none => rw [hrem, Option.none_bind] at h; cases h
      | some q2 =>
        rw [hrem, Option.some_bind, TimeUnit.render, ValueDisplay.fmtStr] at h
        split at h
        · injection h with h
          subst h
          show (extractDigit u total).map _ = _
          rw [extractDigit, hdiv, Option.some_bind, hrem, Option.map_some',
            Option.map_some', pad_integral_length]
        · cases h

/-- The render loop adds exactly the sum of the §8-predicted per-segment
lengths to the accumulated output. -/
theorem renderLoop_length (total : Ratio) :
    ∀ (segs : List Segment) (out res : String),
      renderLoop segs total out = some res →
      ∃ L, specLens total segs = some L ∧
        res.length = out.length + L.sum := by
  intro segs
  induction segs with
  | nil =>
    intro out res h
    injection h with h
    subst h
    exact ⟨[], rfl, by simp⟩
  | cons seg rest ih =>
    intro out res h
    have h' : ((seg.render total).bind fun s =>
        renderLoop rest total (out ++ s)) = some res := h
    cases hseg : seg.render total with
    | none => rw [hseg, Option.none_bind] at h'; cases h'
    | some s =>
      rw [hseg, Option.some_bind] at h'
      obtain ⟨L, hL, hlen⟩ := ih (out ++ s) res h'
      refine ⟨s.length :: L, ?_, ?_⟩
      · show ((segSpecLen total seg).bind fun n =>
          (specLens total rest).map fun ns => n :: ns) = _
        rw [segment_render_length seg total s hseg, Option.some_bind, hL,
          Option.map_some']
      · rw [hlen, String.length_append, List.sum_cons]
        omega

theorem digitVal_digitChar : ∀ d : ℕ, d < 36 → digitVal (digitChar d) = d := by
  decide

theorem digitChar_mem_alphabet :
    ∀ d : ℕ, d < 36 → digitChar d ∈ digitAlphabet.data := by
  decide

/-- Interpreting the digits produced by `toRadixAux` resumes a base-`radix`
accumulator: the digits denote exactly `n`. -/
theorem toRadixAux_foldl (radix : ℕ) (h2 : 2 ≤ radix) (h36 : radix ≤ 36) :
    ∀ (fuel n : ℕ), n ≤ fuel → ∀ acc : ℕ,
      (toRadixAux radix fuel n).foldl (fun a c => a * radix + digitVal c)
          acc =
        acc * radix ^ (toRadixAux radix fuel n).length + n := by
  intro fuel
  induction fuel with
  | zero =>
    intro n hn acc
    have hn0 : n = 0 := by omega
    subst hn0
    simp [toRadixAux]
  | succ fuel ih =>
    intro n hn acc
    cases n with
    | zero => simp [toRadixAux]
    | succ n =>
      have hq : (n + 1) / radix ≤ fuel := by
        have := Nat.div_lt_self (show 0 < n + 1 by omega) (by omega : 1 < radix)
        omega
      have hrm : digitVal (digitChar ((n + 1) % radix)) = (n + 1) % radix := by
        refine digitVal_digitChar _ ?_
        have := Nat.mod_lt (n + 1) (show 0 < radix by omega)
        omega
      simp only [toRadixAux]
      rw [List.foldl_append, List.length_append, ih _ hq acc]
      generalize (toRadixAux radix fuel ((n + 1) / radix)).length = L
      simp only [List.foldl_cons, List.foldl_nil, List.length_cons,
        List.length_nil, hrm]
      have hdm := Nat.div_add_mod (n + 1) radix
      calc (acc * radix ^ L + (n + 1) / radix) * radix + (n + 1) % radix =
          acc * (radix ^ L * radix) +
            (radix * ((n + 1) / radix) + (n + 1) % radix) := by ring
        _ = acc * radix ^ (L + (0 + 1)) + (n + 1) := by
          rw [← pow_succ, hdm, Nat.zero_add]

/-- Every character `toRadixAux` emits is a digit character below the
radix. -/
theorem toRadixAux_mem (radix : ℕ) (h2 : 2 ≤ radix) :
    ∀ (fuel n : ℕ) (c : Char), c ∈ toRadixAux radix fuel n →
      ∃ d, d < radix ∧ c = digitChar d := by
  intro fuel
  induction fuel with
  | zero => intro n c hc; simp [toRadixAux] at hc
  | succ fuel ih =>
    intro n c hc
    cases n with
    | zero => simp [toRadixAux] at hc
    | succ n =>
      simp only [toRadixAux, List.mem_append, List.mem_singleton] at hc
      rcases hc with hc | hc
      · exact ih _ c hc
      · exact ⟨(n + 1) % radix, Nat.mod_lt _ (by omega), hc⟩

/-- Leading `'0'` padding does not change the accumulated value 0. -/
theorem foldl_replicate_zero (radix : ℕ) :
    ∀ k : ℕ,
      (List.replicate k '0').foldl (fun a c => a * radix + digitVal c) 0 =
        0 := by
  intro k
  induction k with
  | zero => rfl
  | succ k ih =>
    rw [List.replicate_succ, List.foldl_cons]
    have h0 : (0 : ℕ) * radix + digitVal '0' = 0 := by
      have hd : digitVal '0' = 0 := by decide
      omega
    rw [h0, ih]

/-- Round trip of the unpadded representation. -/
theorem fromRadix_natRepr (radix n : ℕ) (h2 : 2 ≤ radix)
    (h36 : radix ≤ 36) : fromRadix radix (natRepr radix n) = n := by
  rw [natRepr]
  split
  · rename_i hn
    subst hn
    show (0 : ℕ) * radix + digitVal '0' = 0
    have hd : digitVal '0' = 0 := by decide
    omega
  · show (toRadixAux radix n n).foldl _ 0 = n
    rw [toRadixAux_foldl radix h2 h36 n n le_rfl 0, Nat.zero_mul,
      Nat.zero_add]

/-- Zero padding does not change the interpreted value. -/
theorem fromRadix_pad (radix w : ℕ) (s : String) :
    fromRadix radix (pad_integral w s) = fromRadix radix s := by
  show (List.replicate (w - s.length) '0' ++ s.data).foldl _ 0 =
    s.data.foldl _ 0
  rw [List.foldl_append, foldl_replicate_zero]

/-- Every character of the unpadded representation belongs to the
36-character digit alphabet. -/
theorem natRepr_chars (radix n : ℕ) (h2 : 2 ≤ radix) (h36 : radix ≤ 36) :
    ∀ c ∈ (natRepr radix n).data, c ∈ digitAlphabet.data := by
  intro c hc
  rw [natRepr] at hc
  split at hc
  · have hc0 : c = '0' := by simpa using hc
    subst hc0
    decide
  · obtain ⟨d, hd, rfl⟩ := toRadixAux_mem radix h2 n n c hc
    exact digitChar_mem_alphabet d (by omega)

/-! ## Claim theorems -/

/-- C1: for every value segment with `place_value ≥ 1` and `modulus ≥ 1` and
every nonnegative exact-rational total (a `Ratio` pair with nonzero
denominator), the digit value that gets rendered is
`⌊total / place_value⌋ mod modulus`, computed on the exact rational `total`:
truncation to an integer happens only at the final per-digit step (inside
`ValueDisplay`), never on `total` itself. -/
theorem c1_digit_is_floor_div_mod (u : TimeUnit) (total : Ratio)
    (hv : 1 ≤ u.value) (hl : 1 ≤ u.limit) (_hd : 1 ≤ total.denom) :
    extractDigit u total = some (⌊total.val / (u.value : ℚ)⌋₊ % u.limit) ∧
      (Segment.Value u).render total =
        u.render ⟨⌊total.val / (u.value : ℚ)⌋₊ % u.limit, 1⟩ := by
  have hv' : u.value ≠ 0 := by omega
  have hl' : u.limit ≠ 0 := by omega
  refine ⟨extractDigit_eq_floor u total hv' hl', ?_⟩
  show ((total.divNat u.value).bind fun q =>
      (q.remNat u.limit).bind fun q2 => u.render q2) = _
  rw [Ratio.divNat, if_neg hv', Option.some_bind, Ratio.remNat, if_neg hl',
    Option.some_bind]
  refine TimeUnit.render_congr u _ _ ?_
  rw [Ratio.trunc, Ratio.trunc, Nat.div_one, Nat.mod_mul_right_div_self,
    Ratio.floor_val_div]

/-- Witness for C1 at the minute place of the h:m:s.ms layout and the exact
total of 7,679,092 ms: the digit is `⌊7679092 / 60000⌋ mod 60 = 7`,
rendered as `"07"`. -/
theorem c1_witness :
    extractDigit (TimeUnit.with_radix 10 "minute" 60000 60 2) ⟨7679092, 1⟩ =
        some 7 ∧
      (Segment.Value (TimeUnit.with_radix 10 "minute" 60000 60 2)).render
          ⟨7679092, 1⟩ = some "07" := by
  have h := c1_digit_is_floor_div_mod
    (TimeUnit.with_radix 10 "minute" 60000 60 2) ⟨7679092, 1⟩
    (by decide) (by decide) (by decide)
  rw [Ratio.floor_val_div] at h
  exact ⟨h.1.trans (by decide), h.2.trans (by decide)⟩

/-- C2 (evaluation): the Misalian–Kunimunean formatter on the three concrete
inputs of the claim.  The first two renders match the claimed strings; at
ms = 130,967,197 the code produces `"30:32:30.1"`, not the claimed (and
repo-test-expected, `src/main.rs` line 214) `"130:32:30.1"`: the lapse place
has modulus 36, so its digit `⌊total/7776⌋ = 54` is reduced to `18`
(senary `"30"`) instead of displaying unbounded (senary `"130"`).  The last
two conjuncts formalise the contradiction with the repository's own test
oracle: its reference implementation `senary_time_a` (asserted to agree with
the formatter output and to equal `"130:32:30.1"` by the tests at
`src/main.rs` lines 200 and 214) produces `"130:32:30.1"` at this input,
and the formatter disagrees with it. -/
theorem c2_concrete_renders :
    misalian_kunimunean_time_formatter.render 0 = some "00:00:00.0" ∧
      misalian_kunimunean_time_formatter.render 47521888 =
        some "31:44:45.4" ∧
      misalian_kunimunean_time_formatter.render 130967197 =
        some "30:32:30.1" ∧
      misalian_kunimunean_time_formatter.render 130967197 ≠
        some "130:32:30.1" ∧
      senary_time_a 130967197 = "130:32:30.1" ∧
      misalian_kunimunean_time_formatter.render 130967197 ≠
        some (senary_time_a 130967197) := by
  exact ⟨by rfl, by rfl, by rfl, by decide, by rfl, by decide⟩

/-- C3 (amended): a value segment whose modulus (`limit`) is 0 never
short-circuits; the rational remainder by zero fails (a Rust panic,
`none` here), so no digit is extracted and rendering fails for every
total. -/
theorem c3_mod_zero_fails (u : TimeUnit) (total : Ratio)
    (h : u.limit = 0) :
    (Segment.Value u).render total = none ∧ extractDigit u total = none := by
  have hrem : ∀ q : Ratio, q.remNat u.limit = none := fun q => by
    rw [Ratio.remNat, if_pos h]
  constructor
  · show ((total.divNat u.value).bind fun q =>
        (q.remNat u.limit).bind fun q2 => u.render q2) = none
    cases total.divNat u.value with
    | none => rfl
    | some q => rw [Option.some_bind, hrem, Option.none_bind]
  · show ((total.divNat u.value).bind fun q =>
        (q.remNat u.limit).map fun q2 => q2.trunc) = none
    cases total.divNat u.value with
    | none => rfl
    | some q => rw [Option.some_bind, hrem, Option.map_none']

/-- Witness for C3 (amended) at a concrete mod-0 unit and total. -/
theorem c3_witness :
    (Segment.Value (TimeUnit.with_radix 10 "lapse" 7776 0 2)).render
        ⟨424333, 1⟩ = none ∧
      extractDigit (TimeUnit.with_radix 10 "lapse" 7776 0 2) ⟨424333, 1⟩ =
        none :=
  c3_mod_zero_fails (TimeUnit.with_radix 10 "lapse" 7776 0 2) ⟨424333, 1⟩ rfl

/-- Counterexample to C3 as stated: for a unit with `place_value = 1` and
`modulus = 0` at total 5, the claim predicts digit
`⌊5 / 1⌋ = 5` and a non-failing render; the code extracts no digit
(`none` models the Rust panic of `Ratio % 0`) and rendering fails. -/
theorem c3_counterexample :
    extractDigit (TimeUnit.with_radix 10 "hours" 1 0 2) ⟨5, 1⟩ ≠ some 5 ∧
      (Segment.Value (TimeUnit.with_radix 10 "hours" 1 0 2)).render ⟨5, 1⟩ =
        none := by
  decide

/-- C4 (evaluation): the h:m:s.ms formatter of the `construct_hms_ms` test
on the three concrete inputs of the claim.  The first and third renders
match the claimed strings; at ms = 7,679,092 the code produces
`"02:07:59.92"`, not the claimed (and repo-test-expected,
`src/formatter/mod.rs` line 73) `"02:07:59.092"`: the millisecond place is
configured with width 0, so the digit 92 is not padded to three places. -/
theorem c4_concrete_renders :
    si_time_units.render 0 = some "00:00:00.0" ∧
      si_time_units.render 7679092 = some "02:07:59.92" ∧
      si_time_units.render 49029000 = some "13:37:09.0" ∧
      si_time_units.render 7679092 ≠ some "02:07:59.092" := by
  exact ⟨by rfl, by rfl, by rfl, by decide⟩

/-- C5: for every formatter and every nonnegative millisecond input,
`render(ms)` is the concatenation, in configured segment order, of each
segment rendered against the same exact-rational total
`base × ms` (`Ratio.mulNat`), and every literal segment contributes exactly
its text regardless of the total. -/
theorem c5_render_concatenates_segments :
    (∀ (f : TimeFormatter) (ms : ℕ),
        f.render ms =
          (segmentStrings (f.base.mulNat ms) f.segments).map String.join) ∧
      ∀ (s : String) (total : Ratio),
        (Segment.Literal s).render total = some s := by
  refine ⟨fun f ms => ?_, fun s total => rfl⟩
  rw [TimeFormatter.render, renderLoop_eq_segmentStrings]
  cases segmentStrings (f.base.mulNat ms) f.segments with
  | none => rfl
  | some ss =>
    show some ("" ++ String.join ss) = some (String.join ss)
    rw [String.empty_append]

/-- C6 (amended): local correctness of a two-place decomposition.  For place
values `p1 > p2 ≥ 1` with `p1 = p2 × m2` and moduli `m1 ≥ 1`, `m2`, the
digits the code extracts satisfy
`d1·p1 + d2·p2 ≤ total < d1·p1 + d2·p2 + p2` — provided additionally that
`total < p1·m1`, so that the coarser place does not wrap around its own
modulus (without that bound the property fails; see the counterexample). -/
theorem c6_two_place_decomposition (p1 p2 m1 m2 r1 r2 w1 w2 : ℕ)
    (n1 n2 : String) (total : Ratio) (d1 d2 : ℕ)
    (hp2 : 1 ≤ p2) (hlt : p2 < p1) (hdecomp : p1 = p2 * m2) (hm1 : 1 ≤ m1)
    (hden : 1 ≤ total.denom)
    (hbound : total.val < ((p1 * m1 : ℕ) : ℚ))
    (h1 : extractDigit (TimeUnit.with_radix r1 n1 p1 m1 w1) total = some d1)
    (h2 : extractDigit (TimeUnit.with_radix r2 n2 p2 m2 w2) total = some d2) :
    ((d1 * p1 + d2 * p2 : ℕ) : ℚ) ≤ total.val ∧
      total.val < ((d1 * p1 + d2 * p2 + p2 : ℕ) : ℚ) := by
  have hm2 : 2 ≤ m2 := by
    rcases m2 with _ | m2'
    · rw [Nat.mul_zero] at hdecomp; omega
    · rcases m2' with _ | m2''
      · rw [Nat.mul_one] at hdecomp; omega
      · omega
  have hp1 : 1 ≤ p1 := by omega
  have e1 : total.numer / (total.denom * p1) % m1 = d1 :=
    Option.some.inj
      ((extractDigit_eq_nat (TimeUnit.with_radix r1 n1 p1 m1 w1) total
        (by show p1 ≠ 0; omega) (by show m1 ≠ 0; omega)).symm.trans h1)
  have e2 : total.numer / (total.denom * p2) % m2 = d2 :=
    Option.some.inj
      ((extractDigit_eq_nat (TimeUnit.with_radix r2 n2 p2 m2 w2) total
        (by show p2 ≠ 0; omega) (by show m2 ≠ 0; omega)).symm.trans h2)
  have hb : total.numer < total.denom * (p1 * m1) :=
    (Ratio.val_lt_natCast total (p1 * m1) hden).mp hbound
  have hdpos : 0 < total.denom * p2 := Nat.mul_pos (by omega) (by omega)
  have hN : total.numer / (total.denom * p1) =
      total.numer / (total.denom * p2) / m2 := by
    rw [hdecomp, ← Nat.mul_assoc, ← Nat.div_div_eq_div_mul]
  have hNlt : total.numer / (total.denom * p2) / m2 < m1 := by
    refine Nat.div_lt_of_lt_mul (Nat.div_lt_of_lt_mul ?_)
    calc total.numer < total.denom * (p1 * m1) := hb
      _ = total.denom * p2 * (m2 * (m2 * m1) / m2) := by
        rw [hdecomp, Nat.mul_div_cancel_left _ (by omega : 0 < m2)]; ring
      _ = total.denom * p2 * (m2 * m1) := by
        rw [Nat.mul_div_cancel_left _ (by omega : 0 < m2)]
  have hd1 : d1 = total.numer / (total.denom * p2) / m2 := by
    rw [← e1, hN, Nat.mod_eq_of_lt hNlt]
  have hd2 : d2 = total.numer / (total.denom * p2) % m2 := by rw [← e2]
  have key : d1 * p1 + d2 * p2 =
      p2 * (total.numer / (total.denom * p2)) := by
    rw [hd1, hd2, hdecomp]
    have hdm := Nat.div_add_mod (total.numer / (total.denom * p2)) m2
    calc total.numer / (total.denom * p2) / m2 * (p2 * m2) +
          total.numer / (total.denom * p2) % m2 * p2 =
        p2 * (m2 * (total.numer / (total.denom * p2) / m2) +
          total.numer / (total.denom * p2) % m2) := by ring
      _ = p2 * (total.numer / (total.denom * p2)) := by rw [hdm]
  have hdm' := Nat.div_add_mod total.numer (total.denom * p2)
  have hmod : total.numer % (total.denom * p2) < total.denom * p2 :=
    Nat.mod_lt _ hdpos
  constructor
  · refine (Ratio.natCast_le_val total _ hden).mpr ?_
    rw [key]
    calc total.denom * (p2 * (total.numer / (total.denom * p2))) =
        total.denom * p2 * (total.numer / (total.denom * p2)) := by ring
      _ ≤ total.denom * p2 * (total.numer / (total.denom * p2)) +
          total.numer % (total.denom * p2) := Nat.le_add_right _ _
      _ = total.numer := hdm'
  · refine (Ratio.val_lt_natCast total _ hden).mpr ?_
    rw [key]
    calc total.numer =
        total.denom * p2 * (total.numer / (total.denom * p2)) +
          total.numer % (total.denom * p2) := hdm'.symm
      _ < total.denom * p2 * (total.numer / (total.denom * p2)) +
          total.denom * p2 := Nat.add_lt_add_left hmod _
      _ = total.denom * (p2 * (total.numer / (total.denom * p2)) + p2) := by
        ring

/-- Counterexample to C6 as stated: the two-place decomposition with
`p1 = 2, m1 = 2, p2 = 1, m2 = 2` (so `p1 > p2` and `p1 = p2 × m2`) at
total 4 extracts digits `d1 = ⌊4/2⌋ mod 2 = 0` and `d2 = 4 mod 2 = 0`, but
`total < d1·p1 + d2·p2 + p2` demands `4 < 1`, which is false: the claimed
recombination bound does not hold for all totals, only below `p1·m1`. -/
theorem c6_counterexample :
    extractDigit (TimeUnit.with_radix 10 "hi" 2 2 0) ⟨4, 1⟩ = some 0 ∧
      extractDigit (TimeUnit.with_radix 10 "lo" 1 2 0) ⟨4, 1⟩ = some 0 ∧
      ¬ ((Ratio.mk 4 1).val < ((0 * 2 + 0 * 1 + 1 : ℕ) : ℚ)) := by
  refine ⟨by decide, by decide, fun h => ?_⟩
  have hlt := (Ratio.val_lt_natCast ⟨4, 1⟩ _ (by decide)).mp h
  exact absurd hlt (by decide)

/-- Witness for C6 (amended) at the lapse/lull places (`p1 = 7776`,
`p2 = 216`, `m1 = m2 = 36`) and the total `100000/7 ≈ 14285.7` base units:
the extracted digits are `d1 = 1`, `d2 = 30`, and
`7776 + 30·216 = 14256 ≤ 100000/7 < 14472`. -/
theorem c6_witness :
    ((1 * 7776 + 30 * 216 : ℕ) : ℚ) ≤ (Ratio.mk 100000 7).val ∧
      (Ratio.mk 100000 7).val < ((1 * 7776 + 30 * 216 + 216 : ℕ) : ℚ) :=
  c6_two_place_decomposition 7776 216 36 36 6 6 2 2 "lapse" "lull"
    ⟨100000, 7⟩ 1 30 (by decide) (by decide) (by decide) (by decide)
    (by decide)
    ((Ratio.val_lt_natCast ⟨100000, 7⟩ (7776 * 36) (by decide)).mpr
      (by decide))
    (by decide) (by decide)

/-- C7: for every nonnegative integer value, radix in [2, 36] and width,
the digit renderer (`ValueDisplay` under a `{:0width$}` format spec)
produces a string of lowercase digits from the `'0'`–`'9'`,`'a'`–`'z'`
alphabet that reads back as the value in that radix, left-padded with `'0'`
to length at least `width` and never truncated
(`length = max(width, natural digit count)`); value 0's representation is
the single digit `"0"` before padding. -/
theorem c7_digit_renderer (radix width n : ℕ) (h2 : 2 ≤ radix)
    (h36 : radix ≤ 36) :
    ∃ s : String,
      ValueDisplay.fmtStr radix ⟨n, 1⟩ width = some s ∧
        s.data = List.replicate (width - (natRepr radix n).length) '0' ++
          (natRepr radix n).data ∧
        s.length = max width (natRepr radix n).length ∧
        fromRadix radix s = n ∧
        (∀ c ∈ s.data, c ∈ digitAlphabet.data) ∧
        natRepr radix 0 = "0" := by
  refine ⟨pad_integral width (natRepr radix n), ?_, rfl,
    pad_integral_length _ _, ?_, ?_, rfl⟩
  · rw [ValueDisplay.fmtStr, if_pos ⟨h2, h36⟩]
    have ht : (Ratio.mk n 1).trunc = n := Nat.div_one n
    rw [ht]
  · rw [fromRadix_pad, fromRadix_natRepr radix n h2 h36]
  · intro c hc
    rcases List.mem_append.mp hc with hc | hc
    · rw [List.eq_of_mem_replicate hc]
      decide
    · exact natRepr_chars radix n h2 h36 c hc

/-- Witness for C7: in radix 8 with width 3, the value 39 renders as
`"047"` (the doc example of `src/formatter/unit.rs` lines 62–66), which
reads back as 39. -/
theorem c7_witness :
    ValueDisplay.fmtStr 8 ⟨39, 1⟩ 3 = some "047" ∧ fromRadix 8 "047" = 39 := by
  obtain ⟨s, hs, -, -, hrt, -, -⟩ :=
    c7_digit_renderer 8 3 39 (by decide) (by decide)
  have hval : s = "047" :=
    Option.some.inj
      (hs.symm.trans (by decide : ValueDisplay.fmtStr 8 ⟨39, 1⟩ 3 = some "047"))
  exact ⟨by decide, hval ▸ hrt⟩

/-- C8: whenever `render` produces an output, its length is the sum, over
the segments, of each literal's length plus, for each value segment,
`max(width, natural digit count of the extracted digit value)`. -/
theorem c8_output_length (f : TimeFormatter) (ms : ℕ) (out : String)
    (h : f.render ms = some out) :
    (specLens (f.base.mulNat ms) f.segments).map List.sum =
      some out.length := by
  obtain ⟨L, hL, hlen⟩ := renderLoop_length (f.base.mulNat ms) f.segments ""
    out h
  rw [hL, Option.map_some']
  have h0 : String.length "" = 0 := rfl
  rw [hlen, h0, Nat.zero_add]

/-- Witness for C8 on the h:m:s.ms formatter at 49,029,000 ms, whose output
`"13:37:09.0"` has length 10. -/
theorem c8_witness :
    (specLens (si_time_units.base.mulNat 49029000)
        si_time_units.segments).map List.sum = some 10 :=
  c8_output_length si_time_units 49029000 "13:37:09.0" (by rfl)

/-- C9: construction performs no validation: `TimeUnit::with_radix`,
`TimeUnit::new` and `TimeFormatter::new` are total and store their
arguments unmodified, for every radix (in range or not), place value
(including 0), modulus, and width. -/
theorem c9_no_construction_validation :
    ∀ (radix : ℕ) (name : String) (value limit width : ℕ) (base : Ratio)
      (spec : List Segment),
      TimeUnit.with_radix radix name value limit width =
          { radix := radix, name := name, value := value, limit := limit,
            width := width } ∧
        TimeUnit.new name value limit width =
          { radix := 10, name := name, value := value, limit := limit,
            width := width } ∧
        TimeFormatter.new base spec = { base := base, segments := spec } :=
  fun _ _ _ _ _ _ _ => ⟨rfl, rfl, rfl⟩

/-- C10: for every segment, accumulated output and total, `render_fmt`
writes exactly the text `render` returns, and likewise for `TimeUnit`: the
two rendering paths are equivalent. -/
theorem c10_render_eq_render_fmt :
    ∀ (seg : Segment) (acc : String) (total : Ratio) (u : TimeUnit)
      (v : Ratio),
      seg.render_fmt acc total = (seg.render total).map (fun s => acc ++ s) ∧
        u.render_fmt acc v = (u.render v).map (fun s => acc ++ s) := by
  intro seg acc total u v
  refine ⟨?_, rfl⟩
  cases seg with
  | Literal s => rfl
  | Value u' =>
    show ((total.divNat u'.value).bind fun q =>
        (q.remNat u'.limit).bind fun q2 => u'.render_fmt acc q2) =
      ((total.divNat u'.value).bind fun q =>
        (q.remNat u'.limit).bind fun q2 => u'.render q2).map (fun s => acc ++ s)
    cases total.divNat u'.value with
    | none => rfl
    | some q =>
      rw [Option.some_bind, Option.some_bind]
      cases q.remNat u'.limit with
      | none => rfl
      | some q2 => rfl

end Rn
